import Mathlib

/-!
Shallow embedding of the numeric pipeline of the Predictive_Maintenance_of_Meters
repository, and verification of the frozen claims about it.

Embedded sources:
- src/equip/ml/features.py          (windowed_features, extract_basic_stats,
                                     signals_to_feature_vector)
- src/equip/ml/predict.py           (sanitize_json, the NaN/Inf scrubbing step)
- src/equip/spice_runner/run_ngspice.py (parse_printed_table)
- src/equip/emulator/sensor_emulator.py (emulate_* and run_emulator)
- src/equip/ingest/unify_logger.py  (unify)

Modelling conventions:
- Python floats are modelled by exact rationals.  IEEE NaN is tracked
  explicitly by the scalar type F below; infinities cannot arise in this
  exact model (no overflow, and every division in the embedded code has a
  nonzero denominator whenever its result is finite), so F has no infinity
  constructor.
- numpy square roots are modelled by fsqrt: NaN on negative input, a finite
  value otherwise.  No verified property depends on the rounding of the
  finite value, so the finite branch uses Rat.sqrt.
- A Python exception escaping a function is modelled by Option.none or by
  Except.error; a normal return by some / ok.
- Python dicts are modelled by association lists in insertion order with
  unique keys (the embedded code only ever builds dicts with unique keys,
  except where noted for duplicate table headers, which is modelled
  faithfully).
-/

namespace Equip

/-- Scalar model of a Python float: either a finite (exact rational) value or
IEEE NaN.  Infinities cannot be produced by the embedded code on finite
rational inputs, so they are not represented. -/
inductive F where
  | fin (x : ℚ) : F
  | nan : F
deriving DecidableEq, Repr

/-- Model of numpy sqrt on a float scalar: NaN for negative input, finite
otherwise.  (The finite value is represented through Rat.sqrt; no claim
depends on its rounding.) -/
def fsqrt (x : ℚ) : F := if x < 0 then F.nan else F.fin (Rat.sqrt x)

/-- The seven statistics returned by extract_basic_stats in
src/equip/ml/features.py (dict keys mean, std, max, min, rms, skew, kurt). -/
structure BasicStats where
  mean : F
  std : F
  max : F
  min : F
  rms : F
  skew : F
  kurt : F
deriving DecidableEq, Repr

/-- Embedding of extract_basic_stats (src/equip/ml/features.py, lines 14-24).

np.mean, np.std, np.max, np.min, np.sqrt(np.mean(arr**2)), scipy.stats.skew
(biased: m3 / m2**1.5) and scipy.stats.kurtosis (Fisher, biased:
m4 / m2**2 - 3) on the array.  On a zero-length array np.max raises
ValueError (zero-size array to reduction operation), so the whole call
raises: modelled by none.  For a constant array the central moment m2 is 0,
and 0/0 for skew and kurtosis is IEEE NaN. -/
def extract_basic_stats (arr : List ℚ) : Option BasicStats :=
  match arr with
  | [] => none
  | x :: xs =>
    let n : ℚ := arr.length
    let mean := arr.sum / n
    let m2 := ((arr.map (fun a => (a - mean) ^ 2)).sum) / n
    let m3 := ((arr.map (fun a => (a - mean) ^ 3)).sum) / n
    let m4 := ((arr.map (fun a => (a - mean) ^ 4)).sum) / n
    some {
      mean := F.fin mean
      std := fsqrt m2
      max := F.fin (xs.foldl Max.max x)
      min := F.fin (xs.foldl Min.min x)
      rms := fsqrt ((arr.map (fun a => a ^ 2)).sum / n)
      skew := if m2 = 0 then F.nan else F.fin (m3 / (m2 * Rat.sqrt m2))
      kurt := if m2 = 0 then F.nan else F.fin (m4 / m2 ^ 2 - 3)
    }

/-- The items of the stats dict of extract_basic_stats, in insertion order. -/
def statsItems (s : BasicStats) : List (String × F) :=
  [("mean", s.mean), ("std", s.std), ("max", s.max), ("min", s.min),
   ("rms", s.rms), ("skew", s.skew), ("kurt", s.kurt)]

/-- Embedding of signals_to_feature_vector (src/equip/ml/features.py,
lines 26-33): for each channel name and array, compute the basic stats and
bind each one under the key name_stat.  The input dict has unique channel
names, so the produced keys are unique and dict insertion is modelled by
list append.  An exception from extract_basic_stats propagates. -/
def signals_to_feature_vector (signals : List (String × List ℚ)) :
    Option (List (String × F)) :=
  signals.foldlM
    (fun acc nv => do
      let st ← extract_basic_stats nv.2
      pure (acc ++ (statsItems st).map (fun kv => (nv.1 ++ "_" ++ kv.1, kv.2))))
    []

/-- The scalar branch of sanitize_json in src/equip/ml/predict.py: a float
that is NaN (or infinite, unrepresentable here) is replaced by 0.0. -/
def sanitize_scalar : F → F
  | F.nan => F.fin 0
  | v => v

/-- Embedding of sanitize_json (src/equip/ml/predict.py): replace every
non-finite scalar of the feature dict by 0.0.  (The dict- and list-valued
branches of the Python function are dead for feature vectors, whose values
are all scalars.) -/
def sanitize_json (d : List (String × F)) : List (String × F) :=
  d.map (fun kv => (kv.1, sanitize_scalar kv.2))

/-- Model of Python range(start, stop, step) for a positive step (the
embedded code only ever uses the positive literal step of
windowed_features).  For step that is not positive the model is the empty
list. -/
def pythonRange (start stop step : Int) : List Int :=
  if _h : 0 < step ∧ start < stop then
    start :: pythonRange (start + step) stop step
  else []
termination_by (stop - start).toNat
decreasing_by
  omega

/-- Embedding of windowed_features (src/equip/ml/features.py, lines 6-12):
for start in range(0, len(series) - window_size + 1, step), take the slice
series[start : start + window_size] and extract its basic stats.  Python
range raises ValueError on step = 0: modelled by none.  An exception from
extract_basic_stats on a window propagates. -/
def windowed_features (series : List ℚ) (window_size : Nat) (step : Int) :
    Option (List BasicStats) :=
  if step = 0 then none
  else
    (pythonRange 0 ((series.length : Int) - window_size + 1) step).mapM
      (fun start => extract_basic_stats ((series.drop start.toNat).take window_size))

/-! ## Transient table parser (src/equip/spice_runner/run_ngspice.py) -/

/-- Read an optional leading sign from a character list; true means negative. -/
def readSign : List Char → Bool × List Char
  | '+' :: rest => (false, rest)
  | '-' :: rest => (true, rest)
  | cs => (false, cs)

/-- Read a maximal run of leading decimal digits. -/
def readDigits : List Char → List Char × List Char
  | [] => ([], [])
  | c :: rest =>
    if c.isDigit then
      let (ds, r) := readDigits rest
      (c :: ds, r)
    else ([], c :: rest)

/-- Numeric value of a digit run. -/
def digitsVal (ds : List Char) : Nat :=
  ds.foldl (fun a c => 10 * a + (c.toNat - 48)) 0

/-- Model of Python float() on the numeric tokens of a simulator table:
an optional sign, an integer part and/or a fractional part, and an optional
e/E exponent with optional sign.  none models the ValueError raised on a
token that is not a float literal.  (Surrounding whitespace, underscores and
the inf/nan words accepted by float() cannot occur in whitespace-split
simulator tokens and are outside the model.) -/
def pyFloat (s : String) : Option ℚ :=
  let (neg, cs) := readSign s.toList
  let (ip, cs1) := readDigits cs
  let (fp, cs2) :=
    match cs1 with
    | '.' :: rest => readDigits rest
    | _ => ([], cs1)
  if ip.isEmpty && fp.isEmpty then none
  else
    let mant : ℚ := (digitsVal ip : ℚ) + (digitsVal fp : ℚ) / (10 ^ fp.length : ℚ)
    let expPart : Option (ℚ × List Char) :=
      match cs2 with
      | [] => some (1, [])
      | c :: rest =>
        if c = 'e' ∨ c = 'E' then
          let (eneg, r2) := readSign rest
          let (eds, r3) := readDigits r2
          if eds.isEmpty then none
          else some (if eneg then (1 : ℚ) / 10 ^ digitsVal eds else (10 ^ digitsVal eds : ℚ), r3)
        else some (1, c :: rest)
    match expPart with
    | none => none
    | some (e, rest) =>
      if rest.isEmpty then some ((if neg then -1 else 1) * mant * e) else none

/-- Model of Python str.strip(): remove leading and trailing whitespace. -/
def pyStrip (s : String) : String :=
  ⟨((s.toList.dropWhile Char.isWhitespace).reverse.dropWhile Char.isWhitespace).reverse⟩

/-- Model of Python str.startswith(pat). -/
def pyStartsWith (s pat : String) : Bool :=
  pat.toList.isPrefixOf s.toList

/-- Whether pat occurs as a contiguous run of cs. -/
def containsRun (pat : List Char) : List Char → Bool
  | [] => pat.isEmpty
  | c :: rest => pat.isPrefixOf (c :: rest) || containsRun pat rest

/-- Substring test: models the Python expression pat in s. -/
def containsSub (s pat : String) : Bool :=
  containsRun pat.toList s.toList

/-- Tokenizer loop for pySplitWs: cur is the reversed current token. -/
def splitWsGo (cur : List Char) : List Char → List String
  | [] => if cur.isEmpty then [] else [⟨cur.reverse⟩]
  | c :: rest =>
    if c.isWhitespace then
      if cur.isEmpty then splitWsGo [] rest
      else ⟨cur.reverse⟩ :: splitWsGo [] rest
    else splitWsGo (c :: cur) rest

/-- Model of re.split on whitespace runs applied to a stripped line:
the whitespace-separated tokens of the string.  (On the empty string the
Python call returns a single empty token; the embedded code only ever
splits stripped non-blank lines, where the results agree.) -/
def pySplitWs (s : String) : List String :=
  splitWsGo [] s.toList

/-- The header search of parse_printed_table (run_ngspice.py, lines 38-42):
index of the first line whose stripped form starts with Index and which
contains time. -/
def findHeaderIdx (lines : List String) : Option Nat :=
  lines.findIdx? (fun line => pyStartsWith (pyStrip line) "Index" && containsSub line "time")

/-- The data-row collection loop of parse_printed_table (run_ngspice.py,
lines 47-53): stop at a blank line or at a line whose stripped form starts
with Index; drop a line with fewer whitespace tokens than there are header
columns; keep the first len(headers) tokens of every other line. -/
def collectRows (headers : List String) : List String → List (List String)
  | [] => []
  | line :: rest =>
    if pyStrip line = "" then []
    else if pyStartsWith (pyStrip line) "Index" then []
    else
      let parts := pySplitWs (pyStrip line)
      if parts.length < headers.length then collectRows headers rest
      else parts.take headers.length :: collectRows headers rest

/-- The errors parse_printed_table can raise: the RuntimeError when no header
line is found, and the ValueError of float() on a bad numeric token. -/
inductive ParseError where
  | noTableFound
  | badFloat (token : String)
deriving DecidableEq, Repr

/-- Model of the Python call v.replace("D", "E") for the one-character
pattern: map D to E characterwise. -/
def pyReplaceDE (s : String) : String :=
  ⟨s.toList.map (fun c => if c = 'D' then 'E' else c)⟩

/-- The dict comprehension col_data = one empty list per header name
(run_ngspice.py, line 61).  A Python dict keeps one entry per distinct name,
at its first position of occurrence. -/
def emptyCols : List String → List (String × List ℚ)
  | [] => []
  | h :: rest => (h, []) :: (emptyCols rest).filter (fun kv => kv.1 ≠ h)

/-- col_data[h].append(x): append x to the entry of key h. -/
def dictAppend (d : List (String × List ℚ)) (h : String) (x : ℚ) :
    List (String × List ℚ) :=
  d.map (fun kv => if kv.1 = h then (kv.1, kv.2 ++ [x]) else kv)

/-- One step of the inner loop of run_ngspice.py, lines 62-64: convert the
token hv.2 with D normalized to E and append it to the column of header
hv.1; a failing conversion raises ValueError. -/
def addTok (a : List (String × List ℚ)) (hv : String × String) :
    Except ParseError (List (String × List ℚ)) :=
  match pyFloat (pyReplaceDE hv.2) with
  | none => .error (.badFloat hv.2)
  | some x => .ok (dictAppend a hv.1 x)

/-- The inner loop for h, v in zip(headers, row) of run_ngspice.py,
lines 62-64. -/
def addRow (acc : List (String × List ℚ)) (headers row : List String) :
    Except ParseError (List (String × List ℚ)) :=
  (headers.zip row).foldlM addTok acc

/-- Embedding of parse_printed_table (run_ngspice.py, lines 26-71), from the
split lines of the output text to the RawTable col_data.  The CSV/JSON
serialization steps are I/O outside the parsing contract. -/
def parse_printed_table (lines : List String) :
    Except ParseError (List (String × List ℚ)) :=
  match findHeaderIdx lines with
  | none => .error .noTableFound
  | some hi =>
    let headers := pySplitWs (pyStrip (lines.getD hi ""))
    let rows := collectRows headers (lines.drop (hi + 1))
    rows.foldlM (fun acc row => addRow acc headers row) (emptyCols headers)

/-- The error component of a parse result, if any. -/
def errOf {A : Type} : Except ParseError A → Option ParseError
  | .error e => some e
  | .ok _ => none

/-! ## Sensor emulation layer (src/equip/emulator/sensor_emulator.py) -/

/-- Python dict lookup d.get(k) on an association list (first match). -/
def pyGet {α : Type} (d : List (String × α)) (k : String) : Option α :=
  match d with
  | [] => none
  | kv :: rest => if kv.1 = k then some kv.2 else pyGet rest k

/-- The channel-to-source-column configuration dict of run_emulator
(sensor_emulator.py, lines 73-80). -/
structure Mapping where
  voltage_node_key : String
  current_key : String
  temp_node_key : String
  piezo_key : String
  relay_key : String
deriving DecidableEq, Repr

/-- The default mapping of run_emulator (sensor_emulator.py, lines 74-80). -/
def defaultMapping : Mapping :=
  { voltage_node_key := "V(n_ac)", current_key := "I(V1)",
    temp_node_key := "V(n_therm)", piezo_key := "V(n_piezo)",
    relay_key := "V(n_relay)" }

/-- Embedding of emulate_zmpt (sensor_emulator.py, lines 19-25):
out = 1.5 + 0.006 * v + 0.01 * randn.  The per-sample Gaussian draws are an
explicit argument noise.  none models the TypeError raised when the key is
absent (simdata.get returns None). -/
def emulate_zmpt (simdata : List (String × List ℚ)) (key : String)
    (noise : Nat → ℚ) : Option (List ℚ) :=
  (pyGet simdata key).map
    (fun v => v.mapIdx (fun i x => 3 / 2 + (3 / 500) * x + (1 / 100) * noise i))

/-- Embedding of emulate_acs (sensor_emulator.py, lines 27-32) with
vcc = 3.3 and sensitivity = 0.066: out = vcc / 2 + 0.066 * i + 0.01 * randn. -/
def emulate_acs (simdata : List (String × List ℚ)) (key : String)
    (noise : Nat → ℚ) : Option (List ℚ) :=
  (pyGet simdata key).map
    (fun v => v.mapIdx (fun i x => 33 / 20 + (33 / 500) * x + (1 / 100) * noise i))

/-- Embedding of emulate_ntc (sensor_emulator.py, lines 34-49).  When the
key is absent, temps = 30 + 0.01 * t from the time axis (KeyError if time is
absent too, modelled by none); otherwise temps = 25 + (arr - mean arr) * 5.
Then volt = 1.65 + (temps - 25) * 0.01.  (The mean of a zero-length present
column is nan in numpy; this exact model returns the junk value 0 there — no
claim touches that case.) -/
def emulate_ntc (simdata : List (String × List ℚ)) (key : String) :
    Option (List ℚ) :=
  match pyGet simdata key with
  | none =>
    (pyGet simdata "time").map (fun t =>
      (t.map (fun x => 30 + (1 / 100) * x)).map
        (fun temp => 33 / 20 + (temp - 25) * (1 / 100)))
  | some v =>
    let m := v.sum / v.length
    some ((v.map (fun x => 25 + (x - m) * 5)).map
      (fun temp => 33 / 20 + (temp - 25) * (1 / 100)))

/-- Embedding of emulate_piezo (sensor_emulator.py, lines 51-62): rectify,
first-order low-pass with alpha = 0.05 from state 0, plus 0.005 * randn per
emitted sample.  Absent key falls back to zeros shaped like the time axis
(KeyError, modelled none, if time is absent too). -/
def emulate_piezo (simdata : List (String × List ℚ)) (key : String)
    (noise : Nat → ℚ) : Option (List ℚ) :=
  let arrOpt : Option (List ℚ) :=
    match pyGet simdata key with
    | some arr => some arr
    | none => (pyGet simdata "time").map (fun t => t.map (fun _ => 0))
  arrOpt.map (fun arr =>
    ((arr.map (fun x => |x|)).foldl
        (fun (acc : List ℚ × ℚ) x =>
          let s := (1 / 20) * x + (19 / 20) * acc.2
          (acc.1 ++ [s], s))
        ([], 0)).1.mapIdx (fun i s => s + (1 / 200) * noise i))

/-- Embedding of emulate_relay (sensor_emulator.py, lines 64-67): the raw
values when the key is present, else zeros shaped like the time axis
(KeyError, modelled none, if time is absent too). -/
def emulate_relay (simdata : List (String × List ℚ)) (key : String) :
    Option (List ℚ) :=
  match pyGet simdata key with
  | some arr => some arr
  | none => (pyGet simdata "time").map (fun t => t.map (fun _ => 0))

/-- One guarded assignment of run_emulator (sensor_emulator.py, lines 83-92):
when the source column is present, bind the emulated channel under its GPIO
name; otherwise leave the output dict unchanged. -/
def addChan (out : List (String × List ℚ)) (present : Bool) (name : String)
    (c : Option (List ℚ)) : Option (List (String × List ℚ)) :=
  if present then c.map (fun arr => out ++ [(name, arr)]) else some out

/-- Embedding of run_emulator (sensor_emulator.py, lines 70-95): start from
the time axis (default empty), then conditionally add GPIO34, GPIO35,
GPIO32, GPIO33 and GPIO26 in order, each guarded by the presence of its
configured source column.  The three noise arguments are the Gaussian draw
streams of the zmpt, acs and piezo emulators. -/
def run_emulator (simdata : List (String × List ℚ)) (mapping : Mapping)
    (noiseV noiseA noiseP : Nat → ℚ) : Option (List (String × List ℚ)) :=
  (addChan [("time", (pyGet simdata "time").getD [])]
      (pyGet simdata mapping.voltage_node_key).isSome "GPIO34"
      (emulate_zmpt simdata mapping.voltage_node_key noiseV)).bind fun o1 =>
  (addChan o1 (pyGet simdata mapping.current_key).isSome "GPIO35"
      (emulate_acs simdata mapping.current_key noiseA)).bind fun o2 =>
  (addChan o2 (pyGet simdata mapping.temp_node_key).isSome "GPIO32"
      (emulate_ntc simdata mapping.temp_node_key)).bind fun o3 =>
  (addChan o3 (pyGet simdata mapping.piezo_key).isSome "GPIO33"
      (emulate_piezo simdata mapping.piezo_key noiseP)).bind fun o4 =>
  addChan o4 (pyGet simdata mapping.relay_key).isSome "GPIO26"
      (emulate_relay simdata mapping.relay_key)

/-! ## Row unifier (src/equip/ingest/unify_logger.py) -/

/-- One per-instant record of unify: the time value and one field per
non-time channel, explicitly null (none) where the channel has no value at
that index. -/
structure URow where
  time : ℚ
  fields : List (String × Option ℚ)
deriving DecidableEq, Repr

/-- Embedding of unify (unify_logger.py, lines 6-24): one record per index
of the time array, in order; field k at index i is the channel value when
i < len(arr) and null otherwise.  none models the KeyError when the frame
has no time key. -/
def unify (d : List (String × List ℚ)) : Option (List URow) :=
  (pyGet d "time").map (fun t =>
    let keys := (d.map Prod.fst).filter (fun k => k ≠ "time")
    (List.range t.length).map (fun i =>
      { time := t.getD i 0,
        fields := keys.map (fun k => (k, ((pyGet d k).getD []).get? i)) }))

/-- The constantly-zero noise stream, used to instantiate noise arguments in
concrete instances. -/
def zeroNoise : Nat → ℚ := fun _ => 0

end Equip

namespace Equip

theorem pythonRange_unfold (start stop step : Int) :
    pythonRange start stop step =
      if 0 < step ∧ start < stop then start :: pythonRange (start + step) stop step
      else [] := by
  rw [pythonRange]
  split <;> rfl

theorem pythonRange_length (start stop step : Int) (hst : 0 < step) :
    (pythonRange start stop step).length =
      if start < stop then (stop - start - 1).toNat / step.toNat + 1 else 0 := by
  rw [pythonRange_unfold]
  by_cases h : start < stop
  · rw [if_pos ⟨hst, h⟩, if_pos h]
    simp only [List.length_cons]
    rw [pythonRange_length (start + step) stop step hst]
    by_cases h2 : start + step < stop
    · rw [if_pos h2]
      have he : (stop - start - 1).toNat = (stop - (start + step) - 1).toNat + step.toNat := by
        omega
      rw [he, Nat.add_div_right _ (by omega : 0 < step.toNat)]
    · rw [if_neg h2]
      have hlt : (stop - start - 1).toNat < step.toNat := by omega
      rw [Nat.div_eq_of_lt hlt]
  · rw [if_neg (fun hc => h hc.2), if_neg h]
    rfl
termination_by (stop - start).toNat
decreasing_by omega

theorem pythonRange_eq_map (start stop step : Int) (hst : 0 < step) :
    ∃ n, pythonRange start stop step =
      (List.range n).map (fun k : Nat => start + (k : Int) * step) := by
  rw [pythonRange_unfold]
  by_cases h : start < stop
  · rw [if_pos ⟨hst, h⟩]
    obtain ⟨n, hn⟩ := pythonRange_eq_map (start + step) stop step hst
    refine ⟨n + 1, ?_⟩
    rw [hn, List.range_succ_eq_map, List.map_cons, List.map_map]
    simp only [List.cons.injEq]
    refine ⟨by ring, ?_⟩
    apply List.map_congr_left
    intro a _
    simp only [Function.comp_apply, Nat.succ_eq_add_one]
    push_cast
    ring
  · rw [if_neg (fun hc => h hc.2)]
    exact ⟨0, by simp⟩
termination_by (stop - start).toNat
decreasing_by omega

theorem pythonRange_mem_bounds (start stop step a : Int)
    (ha : a ∈ pythonRange start stop step) : start ≤ a ∧ a < stop := by
  rw [pythonRange_unfold] at ha
  by_cases h : 0 < step ∧ start < stop
  · rw [if_pos h] at ha
    rcases List.mem_cons.mp ha with rfl | ha2
    · exact ⟨le_refl a, h.2⟩
    · have := pythonRange_mem_bounds (start + step) stop step a ha2
      constructor <;> omega
  · rw [if_neg h] at ha
    exact absurd ha (List.not_mem_nil a)
termination_by (stop - start).toNat
decreasing_by omega

theorem extract_isSome (arr : List ℚ) (h : arr ≠ []) :
    (extract_basic_stats arr).isSome := by
  match arr with
  | [] => exact absurd rfl h
  | x :: xs => rfl

theorem mapM_option_of_isSome {α β : Type} (f : α → Option β) :
    ∀ (as : List α), (∀ a ∈ as, (f a).isSome) →
      ∃ bs, as.mapM f = some bs ∧ bs.length = as.length ∧
        ∀ (k : Nat) (hk : k < as.length) (hk2 : k < bs.length),
          f (as.get ⟨k, hk⟩) = some (bs.get ⟨k, hk2⟩) := by
  intro as
  induction as with
  | nil =>
    intro _
    exact ⟨[], rfl, rfl, fun k hk => absurd hk (by simp)⟩
  | cons a as ih =>
    intro h
    obtain ⟨b, hb⟩ := Option.isSome_iff_exists.mp (h a (by simp))
    obtain ⟨bs, h1, h2, h3⟩ := ih (fun x hx => h x (by simp [hx]))
    refine ⟨b :: bs, ?_, by simp [h2], ?_⟩
    · rw [List.mapM_cons, hb, h1]
      rfl
    · intro k hk hk2
      match k with
      | 0 => simpa using hb
      | k + 1 => simpa using h3 k (by simpa using hk) (by simpa using hk2)

/-- C3: for every series and every window_size and step at least 1, the
windowed feature extractor returns one statistic set per start position
k * step up to len - window_size inclusive, in increasing order, each
computed over the window series[k*step .. k*step + window_size - 1]; when
the series is shorter than the window the output is empty and no error is
raised. -/
theorem C3_theorem (series : List ℚ) (w st : Nat) (hw : 1 ≤ w) (hst : 1 ≤ st) :
    ∃ l, windowed_features series w (st : Int) = some l ∧
      l.length = (if series.length < w then 0 else (series.length - w) / st + 1) ∧
      (∀ (k : Nat) (hk : k < l.length),
        extract_basic_stats ((series.drop (k * st)).take w) = some (l.get ⟨k, hk⟩)) ∧
      (series.length < w → l = []) := by
  rw [windowed_features, if_neg (by exact_mod_cast Nat.one_le_iff_ne_zero.mp hst)]
  have hstI : (0 : Int) < (st : Int) := by exact_mod_cast hst
  set stop : Int := (series.length : Int) - w + 1 with hstop
  by_cases hlen : series.length < w
  · have hr : pythonRange 0 stop (st : Int) = [] := by
      rw [pythonRange_unfold, if_neg]
      rintro ⟨-, h2⟩
      omega
    rw [hr]
    refine ⟨[], rfl, by simp [hlen], ?_, fun _ => rfl⟩
    intro k hk
    exact absurd hk (by simp)
  · have hcond : ∀ a ∈ pythonRange 0 stop (st : Int),
        (extract_basic_stats ((series.drop a.toNat).take w)).isSome := by
      intro a ha
      have hb := pythonRange_mem_bounds 0 stop (st : Int) a ha
      apply extract_isSome
      have h2 : 0 < ((series.drop a.toNat).take w).length := by
        rw [List.length_take, List.length_drop]
        omega
      exact List.ne_nil_of_length_pos h2
    obtain ⟨l, hl, hlen2, hget⟩ :=
      mapM_option_of_isSome _ (pythonRange 0 stop (st : Int)) hcond
    have hRlen : (pythonRange 0 stop (st : Int)).length = (series.length - w) / st + 1 := by
      rw [pythonRange_length 0 stop (st : Int) hstI, if_pos (by omega : (0 : Int) < stop)]
      congr 1
      have h1 : (stop - 0 - 1).toNat = series.length - w := by omega
      have h2 : (st : Int).toNat = st := Int.toNat_natCast st
      rw [h1, h2]
    refine ⟨l, hl, by rw [hlen2, hRlen, if_neg hlen], ?_, fun hc => absurd hc hlen⟩
    intro k hk
    have hkR : k < (pythonRange 0 stop (st : Int)).length := by omega
    have hgk := hget k hkR hk
    obtain ⟨n, hn⟩ := pythonRange_eq_map 0 stop (st : Int) hstI
    have hkn : k < n := by
      have hc := congrArg List.length hn
      simp only [List.length_map, List.length_range] at hc
      omega
    have hElem : (pythonRange 0 stop (st : Int)).get ⟨k, hkR⟩ = ((k * st : Nat) : Int) := by
      rw [List.get_eq_getElem, List.getElem_of_eq hn]
      simp only [List.getElem_map, List.getElem_range]
      push_cast
      ring
    rw [hElem, Int.toNat_natCast] at hgk
    exact hgk

theorem pythonRange_151 : pythonRange 0 151 50 = [0, 50, 100, 150] := by
  rw [pythonRange_unfold]; norm_num
  rw [pythonRange_unfold]; norm_num
  rw [pythonRange_unfold]; norm_num
  rw [pythonRange_unfold]; norm_num
  rw [pythonRange_unfold]; norm_num

theorem win250_len :
    (windowed_features (List.replicate 250 (0 : ℚ)) 100 50).map List.length = some 4 := by
  rw [windowed_features, if_neg (by norm_num)]
  have h1 : ((List.replicate 250 (0 : ℚ)).length : Int) - ((100 : Nat) : Int) + 1 = 151 := by
    simp only [List.length_replicate]
    norm_num
  rw [h1, pythonRange_151]
  obtain ⟨bs, hbs, hlen, -⟩ :=
    mapM_option_of_isSome
      (fun start : Int =>
        extract_basic_stats (((List.replicate 250 (0 : ℚ)).drop start.toNat).take 100))
      [0, 50, 100, 150]
      (by
        intro a ha
        fin_cases ha <;>
          · apply extract_isSome
            apply List.ne_nil_of_length_pos
            simp only [List.length_take, List.length_drop, List.length_replicate,
              Int.toNat_ofNat, Int.toNat_zero]
            norm_num)
  rw [hbs]
  simp only [Option.map_some', List.length_cons, List.length_nil, hlen]

theorem win90_nil :
    windowed_features (List.replicate 90 (0 : ℚ)) 100 50 = some [] := by
  rw [windowed_features, if_neg (by norm_num)]
  have h1 : ((List.replicate 90 (0 : ℚ)).length : Int) - ((100 : Nat) : Int) + 1 = -9 := by
    simp only [List.length_replicate]
    norm_num
  rw [h1, pythonRange_unfold]
  norm_num
  rfl

/-- C2 counterexample: with window_size 100 and step 50, a 250-sample
series yields 4 windows, not the 3 the claim states. -/
theorem C2_counterexample :
    (windowed_features (List.replicate 250 (0 : ℚ)) 100 50).map List.length = some 4 ∧
    (windowed_features (List.replicate 250 (0 : ℚ)) 100 50).map List.length ≠ some 3 := by
  refine ⟨win250_len, ?_⟩
  rw [win250_len]
  simp

/-- C2 (amended): with window_size 100 and step 50, the window starts on a
250-sample series are 0, 50, 100 and 150 — exactly 4 windows — and a
90-sample series yields 0 windows. -/
theorem C2_theorem :
    pythonRange 0 ((250 : Int) - 100 + 1) 50 = [0, 50, 100, 150] ∧
    (windowed_features (List.replicate 250 (0 : ℚ)) 100 50).map List.length = some 4 ∧
    windowed_features (List.replicate 90 (0 : ℚ)) 100 50 = some [] := by
  refine ⟨?_, win250_len, win90_nil⟩
  have h : ((250 : Int) - 100 + 1) = 151 := by norm_num
  rw [h, pythonRange_151]

/-- C3 witness: the windowing contract instantiated on the series
[1, 2, 3, 4, 5] with window_size 2 and step 2. -/
theorem C3_witness :
    ∃ l, windowed_features [1, 2, 3, 4, 5] 2 ((2 : Nat) : Int) = some l ∧
      l.length = (if (5 : Nat) < 2 then 0 else (5 - 2) / 2 + 1) ∧
      (∀ (k : Nat) (hk : k < l.length),
        extract_basic_stats ((([1, 2, 3, 4, 5] : List ℚ).drop (k * 2)).take 2) =
          some (l.get ⟨k, hk⟩)) ∧
      ((5 : Nat) < 2 → l = []) :=
  C3_theorem [1, 2, 3, 4, 5] 2 2 (by norm_num) (by norm_num)

theorem fsqrt_zero : fsqrt 0 = F.fin 0 := by
  rw [fsqrt, if_neg (by norm_num)]
  norm_num

theorem extract_const3 :
    extract_basic_stats [0, 0, 0] =
      some { mean := F.fin 0, std := F.fin 0, max := F.fin 0, min := F.fin 0,
             rms := F.fin 0, skew := F.nan, kurt := F.nan } := by
  rw [extract_basic_stats]
  norm_num [fsqrt_zero]

/-- C1 counterexample: on the constant channel [0, 0, 0], the feature
vector returned by signals_to_feature_vector itself contains NaN for
skewness and kurtosis — the extractor does not sanitize. -/
theorem C1_counterexample :
    signals_to_feature_vector [("GPIO34", [0, 0, 0])] =
      some [("GPIO34_mean", F.fin 0), ("GPIO34_std", F.fin 0), ("GPIO34_max", F.fin 0),
            ("GPIO34_min", F.fin 0), ("GPIO34_rms", F.fin 0), ("GPIO34_skew", F.nan),
            ("GPIO34_kurt", F.nan)] := by
  rw [signals_to_feature_vector]
  rw [List.foldlM_cons]
  rw [extract_const3]
  rfl

/-- C1 (amended): the extractor output may contain NaN; the sanitization
step of the inference client (sanitize_json of predict.py), applied to any
feature vector the extractor returns, leaves no NaN scalar. -/
theorem C1_theorem (signals : List (String × List ℚ)) (v : List (String × F))
    (_h : signals_to_feature_vector signals = some v) :
    ∀ kv ∈ sanitize_json v, kv.2 ≠ F.nan := by
  intro kv hkv
  rw [sanitize_json] at hkv
  obtain ⟨kv0, hkv0, rfl⟩ := List.mem_map.mp hkv
  cases h2 : kv0.2 <;> simp [sanitize_scalar, h2]

/-- C8 (amended): parsing with no header line always fails with
NoTableFound; for any positive step, the windowed extractor on a too-short
(including empty) series returns an empty list, the flattener on an empty
mapping and the unifier on an empty time axis return empty outputs, all
without failing; but the basic statistics extractor on a zero-length array
fails (max of an empty array) instead of returning an empty structure. -/
theorem C8_theorem :
    (∀ lines, findHeaderIdx lines = none →
      parse_printed_table lines = Except.error ParseError.noTableFound) ∧
    (∀ (series : List ℚ) (w : Nat) (st : Int), 1 ≤ st → series.length < w →
      windowed_features series w st = some []) ∧
    signals_to_feature_vector [] = some [] ∧
    (∀ d : List (String × List ℚ), pyGet d "time" = some [] → unify d = some []) ∧
    extract_basic_stats ([] : List ℚ) = none := by
  refine ⟨?_, ?_, rfl, ?_, rfl⟩
  · intro lines h
    rw [parse_printed_table, h]
  · intro series w st hst hlen
    rw [windowed_features, if_neg (by omega)]
    have hr : pythonRange 0 ((series.length : Int) - w + 1) st = [] := by
      rw [pythonRange_unfold, if_neg]
      rintro ⟨h1, h2⟩
      omega
    rw [hr]
    rfl
  · intro d h
    rw [unify, h]
    simp

/-- C8 witness: the empty-input behaviors instantiated on concrete inputs:
a header-free text, an empty series and a 1-sample series below the default
window size, and a frame with an empty time axis. -/
theorem C8_witness :
    parse_printed_table ["no table"] = Except.error ParseError.noTableFound ∧
    windowed_features [] 100 50 = some [] ∧
    windowed_features [3] 100 50 = some [] ∧
    unify [("time", [])] = some [] :=
  ⟨C8_theorem.1 ["no table"] (by rfl),
   C8_theorem.2.1 [] 100 50 (by norm_num) (by decide),
   C8_theorem.2.1 [3] 100 50 (by norm_num) (by decide),
   C8_theorem.2.2.2.1 [("time", [])] (by rfl)⟩

/-- C8 counterexample: the basic statistics extractor on a zero-length
array raises (modelled none) instead of returning an empty structure
without failing. -/
theorem C8_counterexample : extract_basic_stats ([] : List ℚ) = none := rfl

theorem collectRows_row_length (headers : List String) :
    ∀ (lines : List String) (row : List String),
      row ∈ collectRows headers lines → row.length = headers.length := by
  intro lines
  induction lines with
  | nil => intro row hr; exact absurd hr (List.not_mem_nil row)
  | cons line rest ih =>
    intro row hr
    rw [collectRows] at hr
    by_cases h1 : pyStrip line = ""
    · rw [if_pos h1] at hr
      exact absurd hr (List.not_mem_nil row)
    · rw [if_neg h1] at hr
      by_cases h2 : pyStartsWith (pyStrip line) "Index" = true
      · rw [if_pos h2] at hr
        exact absurd hr (List.not_mem_nil row)
      · rw [if_neg h2] at hr
        by_cases h3 : (pySplitWs (pyStrip line)).length < headers.length
        · rw [if_pos h3] at hr
          exact ih row hr
        · rw [if_neg h3] at hr
          rcases List.mem_cons.mp hr with rfl | hr2
          · rw [List.length_take]
            omega
          · exact ih row hr2

theorem addTok_error_shape (a : List (String × List ℚ)) (hv : String × String)
    (e : ParseError) (h : addTok a hv = .error e) : ∃ tok, e = .badFloat tok := by
  rw [addTok] at h
  cases hpf : pyFloat (pyReplaceDE hv.2) with
  | none => rw [hpf] at h; exact ⟨hv.2, (Except.error.injEq _ _).mp h.symm⟩
  | some x => rw [hpf] at h; exact absurd h (by simp)

theorem foldTok_ok_of_all_some (pairs : List (String × String)) :
    ∀ (acc : List (String × List ℚ)),
      (∀ hv ∈ pairs, (pyFloat (pyReplaceDE hv.2)).isSome) →
      ∃ acc', pairs.foldlM addTok acc = .ok acc' := by
  induction pairs with
  | nil => intro acc _; exact ⟨acc, rfl⟩
  | cons p ps ih =>
    intro acc h
    obtain ⟨x, hx⟩ := Option.isSome_iff_exists.mp (h p (by simp))
    obtain ⟨acc', hacc'⟩ := ih (dictAppend acc p.1 x) (fun hv hhv => h hv (by simp [hhv]))
    refine ⟨acc', ?_⟩
    rw [List.foldlM_cons, addTok, hx]
    exact hacc'

theorem foldTok_error_of_bad (pairs : List (String × String)) :
    ∀ (acc : List (String × List ℚ)),
      (∃ hv ∈ pairs, pyFloat (pyReplaceDE hv.2) = none) →
      ∃ tok, pairs.foldlM addTok acc = .error (.badFloat tok) := by
  induction pairs with
  | nil => intro acc h; obtain ⟨hv, hmem, -⟩ := h; exact absurd hmem (List.not_mem_nil hv)
  | cons p ps ih =>
    intro acc h
    rw [List.foldlM_cons]
    cases hpf : pyFloat (pyReplaceDE p.2) with
    | none =>
      refine ⟨p.2, ?_⟩
      rw [addTok, hpf]
      rfl
    | some x =>
      rw [addTok, hpf]
      obtain ⟨hv, hmem, hbad⟩ := h
      rcases List.mem_cons.mp hmem with rfl | hmem2
      · rw [hpf] at hbad; exact absurd hbad (by simp)
      · exact ih (dictAppend acc p.1 x) ⟨hv, hmem2, hbad⟩

theorem foldTok_error_shape (pairs : List (String × String)) :
    ∀ (acc : List (String × List ℚ)) (e : ParseError),
      pairs.foldlM addTok acc = .error e → ∃ tok, e = .badFloat tok := by
  induction pairs with
  | nil =>
    intro acc e h
    rw [List.foldlM_nil] at h
    simp only [pure, Except.pure] at h
    exact absurd h (by simp)
  | cons p ps ih =>
    intro acc e h
    rw [List.foldlM_cons] at h
    cases hpf : addTok acc p with
    | error e2 =>
      rw [hpf] at h
      simp only [bind, Except.bind] at h
      obtain rfl : e2 = e := (Except.error.injEq _ _).mp h
      exact addTok_error_shape acc p e2 hpf
    | ok acc2 =>
      rw [hpf] at h
      simp only [bind, Except.bind] at h
      exact ih acc2 e h

theorem dictAppend_get (d : List (String × List ℚ)) (h : String) (x : ℚ)
    (j : Nat) (hj : j < d.length) (hj2 : j < (dictAppend d h x).length) :
    (dictAppend d h x).get ⟨j, hj2⟩ =
      (if (d.get ⟨j, hj⟩).1 = h
       then ((d.get ⟨j, hj⟩).1, (d.get ⟨j, hj⟩).2 ++ [x])
       else d.get ⟨j, hj⟩) := by
  unfold dictAppend
  simp only [List.get_eq_getElem, List.getElem_map]

theorem dictAppend_length (d : List (String × List ℚ)) (h : String) (x : ℚ) :
    (dictAppend d h x).length = d.length := by
  unfold dictAppend
  rw [List.length_map]

theorem foldTok_keys_counts (pairs : List (String × String)) :
    ∀ (acc acc' : List (String × List ℚ)),
      pairs.foldlM addTok acc = .ok acc' →
      acc'.length = acc.length ∧
      ∀ (j : Nat) (hj : j < acc.length) (hj2 : j < acc'.length),
        (acc'.get ⟨j, hj2⟩).1 = (acc.get ⟨j, hj⟩).1 ∧
        (acc'.get ⟨j, hj2⟩).2.length =
          (acc.get ⟨j, hj⟩).2.length + (pairs.map Prod.fst).count (acc.get ⟨j, hj⟩).1 := by
  induction pairs with
  | nil =>
    intro acc acc' hok
    rw [List.foldlM_nil] at hok
    simp only [pure, Except.pure, Except.ok.injEq] at hok
    subst hok
    exact ⟨rfl, fun j hj hj2 => ⟨rfl, by simp⟩⟩
  | cons p ps ih =>
    intro acc acc' hok
    rw [List.foldlM_cons] at hok
    cases hx : pyFloat (pyReplaceDE p.2) with
    | none =>
      rw [addTok, hx] at hok
      simp only [bind, Except.bind] at hok
      exact absurd hok (by simp)
    | some x =>
      rw [addTok, hx] at hok
      simp only [bind, Except.bind] at hok
      obtain ⟨hl, hget⟩ := ih (dictAppend acc p.1 x) acc' hok
      have hl2 : (dictAppend acc p.1 x).length = acc.length := dictAppend_length acc p.1 x
      refine ⟨by omega, ?_⟩
      intro j hj hj2
      have hj3 : j < (dictAppend acc p.1 x).length := by omega
      obtain ⟨hk, hc⟩ := hget j hj3 hj2
      have hget2 := dictAppend_get acc p.1 x j hj hj3
      by_cases hkey : (acc.get ⟨j, hj⟩).1 = p.1
      · rw [if_pos hkey] at hget2
        rw [hget2] at hk hc
        simp only at hk hc
        refine ⟨hk, ?_⟩
        rw [hc, List.map_cons, List.count_cons]
        simp only [List.length_append, List.length_cons, List.length_nil, hkey]
        simp
        omega
      · rw [if_neg hkey] at hget2
        rw [hget2] at hk hc
        refine ⟨hk, ?_⟩
        rw [hc, List.map_cons, List.count_cons]
        simp [beq_iff_eq, hkey]
        intro hcc
        apply hkey
        rw [List.get_eq_getElem, hcc]

theorem mem_zip_of_mem_row (headers row : List String) (t : String)
    (hlen : row.length = headers.length) (ht : t ∈ row) :
    ∃ h, (h, t) ∈ headers.zip row := by
  obtain ⟨⟨j, hj⟩, hget⟩ := List.mem_iff_get.mp ht
  have hjz : j < (headers.zip row).length := by
    rw [List.length_zip]
    omega
  refine ⟨headers.get ⟨j, by omega⟩, ?_⟩
  have hz : (headers.zip row).get ⟨j, hjz⟩ = (headers.get ⟨j, by omega⟩, row.get ⟨j, hj⟩) := by
    simp [List.get_eq_getElem, List.getElem_zip]
  rw [← hget, ← hz]
  exact List.get_mem _ _ _

theorem rowsFold_error_of_bad (headers : List String) :
    ∀ (rows : List (List String)) (acc : List (String × List ℚ)),
      (∃ row ∈ rows, ∃ hv ∈ headers.zip row, pyFloat (pyReplaceDE hv.2) = none) →
      ∃ tok, rows.foldlM (fun a row => addRow a headers row) acc =
        .error (.badFloat tok) := by
  intro rows
  induction rows with
  | nil =>
    intro acc h
    obtain ⟨row, hmem, -⟩ := h
    exact absurd hmem (List.not_mem_nil row)
  | cons r rs ih =>
    intro acc h
    rw [List.foldlM_cons]
    cases haddRow : addRow acc headers r with
    | error e =>
      obtain ⟨tok, rfl⟩ := foldTok_error_shape (headers.zip r) acc e haddRow
      exact ⟨tok, rfl⟩
    | ok acc2 =>
      simp only [bind, Except.bind]
      obtain ⟨row, hmem, hv, hvmem, hbad⟩ := h
      rcases List.mem_cons.mp hmem with rfl | hmem2
      · exfalso
        obtain ⟨tok, htok⟩ := foldTok_error_of_bad (headers.zip row) acc ⟨hv, hvmem, hbad⟩
        rw [addRow] at haddRow
        rw [haddRow] at htok
        exact absurd htok (by simp)
      · exact ih acc2 ⟨row, hmem2, hv, hvmem, hbad⟩

theorem rowsFold_keys_counts (headers : List String) :
    ∀ (rows : List (List String)) (acc acc' : List (String × List ℚ)),
      (∀ row ∈ rows, row.length = headers.length) →
      rows.foldlM (fun a row => addRow a headers row) acc = .ok acc' →
      acc'.length = acc.length ∧
      ∀ (j : Nat) (hj : j < acc.length) (hj2 : j < acc'.length),
        (acc'.get ⟨j, hj2⟩).1 = (acc.get ⟨j, hj⟩).1 ∧
        (acc'.get ⟨j, hj2⟩).2.length =
          (acc.get ⟨j, hj⟩).2.length + rows.length * headers.count (acc.get ⟨j, hj⟩).1 := by
  intro rows
  induction rows with
  | nil =>
    intro acc acc' hlens hok
    rw [List.foldlM_nil] at hok
    simp only [pure, Except.pure, Except.ok.injEq] at hok
    subst hok
    exact ⟨rfl, fun j hj hj2 => ⟨rfl, by simp⟩⟩
  | cons r rs ih =>
    intro acc acc' hlens hok
    rw [List.foldlM_cons] at hok
    cases haddRow : addRow acc headers r with
    | error e =>
      rw [haddRow] at hok
      simp only [bind, Except.bind] at hok
      exact absurd hok (by simp)
    | ok acc2 =>
      rw [haddRow] at hok
      simp only [bind, Except.bind] at hok
      rw [addRow] at haddRow
      obtain ⟨hl1, hget1⟩ := foldTok_keys_counts (headers.zip r) acc acc2 haddRow
      obtain ⟨hl2, hget2⟩ := ih acc2 acc' (fun row hr => hlens row (by simp [hr])) hok
      have hzipfst : (headers.zip r).map Prod.fst = headers :=
        List.map_fst_zip headers r (le_of_eq (hlens r (by simp)).symm)
      refine ⟨by omega, ?_⟩
      intro j hj hj2
      have hj3 : j < acc2.length := by omega
      obtain ⟨hk1, hc1⟩ := hget1 j hj hj3
      obtain ⟨hk2, hc2⟩ := hget2 j hj3 hj2
      rw [hzipfst] at hc1
      refine ⟨by rw [hk2, hk1], ?_⟩
      rw [hc2, hc1, hk1]
      have hm : (rs.length + 1) * headers.count (acc.get ⟨j, hj⟩).1 =
          rs.length * headers.count (acc.get ⟨j, hj⟩).1 +
            headers.count (acc.get ⟨j, hj⟩).1 := by ring
      simp only [List.length_cons]
      omega

theorem emptyCols_mem (hs : List String) :
    ∀ kv ∈ emptyCols hs, kv.1 ∈ hs ∧ kv.2 = [] := by
  induction hs with
  | nil => intro kv hkv; exact absurd hkv (List.not_mem_nil kv)
  | cons h rest ih =>
    intro kv hkv
    rw [emptyCols] at hkv
    rcases List.mem_cons.mp hkv with rfl | hkv2
    · exact ⟨by simp, rfl⟩
    · have hkv3 := List.mem_of_mem_filter hkv2
      obtain ⟨hmem, hval⟩ := ih kv hkv3
      exact ⟨by simp [hmem], hval⟩

theorem emptyCols_keys_nodup (hs : List String) :
    ((emptyCols hs).map Prod.fst).Nodup := by
  induction hs with
  | nil => simp [emptyCols]
  | cons h rest ih =>
    rw [emptyCols, List.map_cons]
    refine List.nodup_cons.mpr ⟨?_, ?_⟩
    · intro hmem
      obtain ⟨kv, hkv, hfst⟩ := List.mem_map.mp hmem
      have hne := List.of_mem_filter hkv
      simp only [decide_eq_true_eq] at hne
      exact hne (by simpa using hfst)
    · exact List.Nodup.sublist
        (List.Sublist.map Prod.fst (List.filter_sublist _)) ih

theorem emptyCols_keys_mem_iff (hs : List String) :
    ∀ k, k ∈ (emptyCols hs).map Prod.fst ↔ k ∈ hs := by
  induction hs with
  | nil => simp [emptyCols]
  | cons h rest ih =>
    intro k
    rw [emptyCols, List.map_cons]
    simp only [List.mem_cons]
    constructor
    · rintro (hk | hmem)
      · left
        simpa using hk
      · obtain ⟨kv, hkv, rfl⟩ := List.mem_map.mp hmem
        exact Or.inr ((ih kv.1).mp (List.mem_map_of_mem Prod.fst (List.mem_of_mem_filter hkv)))
    · rintro (rfl | hmem)
      · left
        rfl
      · by_cases hk : k = h
        · left
          simpa using hk
        · right
          obtain ⟨kv, hkv, rfl⟩ := List.mem_map.mp ((ih k).mpr hmem)
          refine List.mem_map_of_mem Prod.fst (List.mem_filter.mpr ⟨hkv, ?_⟩)
          simp [hk]

theorem sum_count_of_keys (keys hs : List String) (hnd : keys.Nodup)
    (hiff : ∀ k, k ∈ keys ↔ k ∈ hs) :
    (keys.map (fun k => hs.count k)).sum = hs.length := by
  rw [← List.sum_toFinset _ hnd]
  have hfs : keys.toFinset = hs.toFinset := by
    ext k
    simp only [List.mem_toFinset]
    exact hiff k
  rw [hfs]
  exact List.sum_toFinset_count_eq_length hs

theorem parse_ok_struct (lines : List String) (hi : Nat)
    (table : List (String × List ℚ))
    (hidx : findHeaderIdx lines = some hi)
    (hok : parse_printed_table lines = .ok table) :
    table.map Prod.fst = (emptyCols (pySplitWs (pyStrip (lines.getD hi "")))).map Prod.fst ∧
    ∀ kv ∈ table, kv.2.length =
      (collectRows (pySplitWs (pyStrip (lines.getD hi ""))) (lines.drop (hi + 1))).length *
        (pySplitWs (pyStrip (lines.getD hi ""))).count kv.1 := by
  simp only [parse_printed_table, hidx] at hok
  set headers := pySplitWs (pyStrip (lines.getD hi "")) with hH
  set rows := collectRows headers (lines.drop (hi + 1)) with hR
  obtain ⟨hl, hget⟩ := rowsFold_keys_counts headers rows (emptyCols headers) table
    (fun row hr => collectRows_row_length headers (lines.drop (hi + 1)) row hr) hok
  constructor
  · apply List.ext_get (by simp [hl])
    intro j h1 h2
    simp only [List.get_eq_getElem, List.getElem_map]
    have hkk := (hget j (by simpa using h2) (by simpa using h1)).1
    simpa [List.get_eq_getElem] using hkk
  · intro kv hkv
    obtain ⟨⟨j, hj⟩, hget2⟩ := List.mem_iff_get.mp hkv
    have hj2 : j < (emptyCols headers).length := by omega
    obtain ⟨hk, hc⟩ := hget j hj2 hj
    have hmem := emptyCols_mem headers _ (List.get_mem (emptyCols headers) j hj2)
    obtain rfl := hget2
    rw [hc, hmem.2, hk]
    simp

/-- C10: when the located header has pairwise-distinct column names and the
parse succeeds, every column of the output table has length equal to the
number of retained data rows — the table is never ragged. -/
theorem C10_theorem (lines : List String) (hi : Nat)
    (table : List (String × List ℚ))
    (hidx : findHeaderIdx lines = some hi)
    (hnodup : (pySplitWs (pyStrip (lines.getD hi ""))).Nodup)
    (hok : parse_printed_table lines = .ok table) :
    ∀ kv ∈ table, kv.2.length =
      (collectRows (pySplitWs (pyStrip (lines.getD hi ""))) (lines.drop (hi + 1))).length := by
  obtain ⟨hkeys, hvals⟩ := parse_ok_struct lines hi table hidx hok
  intro kv hkv
  rw [hvals kv hkv]
  have hmem : kv.1 ∈ pySplitWs (pyStrip (lines.getD hi "")) := by
    have h2 : kv.1 ∈ table.map Prod.fst := List.mem_map_of_mem Prod.fst hkv
    rw [hkeys] at h2
    exact (emptyCols_keys_mem_iff _ kv.1).mp h2
  rw [List.count_eq_one_of_mem hnodup hmem, Nat.mul_one]

/-- C5 (amended): the RawTable built by the parser has one key per distinct
header name (keys are deduplicated and exactly the header names), and the
total number of stored values is rows * columns: values of same-named
columns are merged into the shared key, not dropped. -/
theorem C5_theorem (lines : List String) (hi : Nat)
    (table : List (String × List ℚ))
    (hidx : findHeaderIdx lines = some hi)
    (hok : parse_printed_table lines = .ok table) :
    (table.map Prod.fst).Nodup ∧
    (∀ k, k ∈ table.map Prod.fst ↔ k ∈ pySplitWs (pyStrip (lines.getD hi ""))) ∧
    (table.map (fun kv => kv.2.length)).sum =
      (collectRows (pySplitWs (pyStrip (lines.getD hi ""))) (lines.drop (hi + 1))).length *
        (pySplitWs (pyStrip (lines.getD hi ""))).length := by
  obtain ⟨hkeys, hvals⟩ := parse_ok_struct lines hi table hidx hok
  refine ⟨by rw [hkeys]; exact emptyCols_keys_nodup _,
    fun k => by rw [hkeys]; exact emptyCols_keys_mem_iff _ k, ?_⟩
  have hmapeq : table.map (fun kv => kv.2.length) =
      table.map (fun kv =>
        (collectRows (pySplitWs (pyStrip (lines.getD hi ""))) (lines.drop (hi + 1))).length *
          (pySplitWs (pyStrip (lines.getD hi ""))).count kv.1) :=
    List.map_congr_left (fun kv hkv => hvals kv hkv)
  rw [hmapeq, List.sum_map_mul_left]
  congr 1
  have hstep : (table.map Prod.fst).map
      (fun k => (pySplitWs (pyStrip (lines.getD hi ""))).count k) =
      table.map (fun kv => (pySplitWs (pyStrip (lines.getD hi ""))).count kv.1) := by
    rw [List.map_map]
    rfl
  rw [← hstep, hkeys]
  exact sum_count_of_keys _ _ (emptyCols_keys_nodup _)
    (emptyCols_keys_mem_iff _)

/-- C4 (amended): a data line with fewer tokens than header columns is
silently skipped by the row collector; but a retained row holding a token
that still fails float conversion after D-to-E normalization makes the
whole parse abort with a badFloat error rather than dropping the row. -/
theorem C4_theorem :
    (∀ (headers : List String) (line : String) (rest : List String),
      pyStrip line ≠ "" →
      ¬ pyStartsWith (pyStrip line) "Index" = true →
      (pySplitWs (pyStrip line)).length < headers.length →
      collectRows headers (line :: rest) = collectRows headers rest) ∧
    (∀ (lines : List String) (hi : Nat),
      findHeaderIdx lines = some hi →
      (∃ row ∈ collectRows (pySplitWs (pyStrip (lines.getD hi ""))) (lines.drop (hi + 1)),
        ∃ t ∈ row, pyFloat (pyReplaceDE t) = none) →
      ∃ tok, parse_printed_table lines = .error (.badFloat tok)) := by
  constructor
  · intro headers line rest h1 h2 h3
    rw [collectRows, if_neg h1, if_neg h2, if_pos h3]
  · intro lines hi hidx hbad
    simp only [parse_printed_table, hidx]
    obtain ⟨row, hrow, t, ht, hbadt⟩ := hbad
    have hlen := collectRows_row_length _ _ row hrow
    obtain ⟨h, hmem⟩ := mem_zip_of_mem_row _ row t hlen ht
    exact rowsFold_error_of_bad _ _ _ ⟨row, hrow, (h, t), hmem, hbadt⟩

/-- C4 counterexample: a retained row with the unconvertible token abc
aborts the parse with an error instead of being dropped. -/
theorem C4_counterexample :
    errOf (parse_printed_table ["Index time V(a)", "0 1.0 2.0", "1 abc 2.0"]) =
      some (ParseError.badFloat "abc") := by decide

/-- C4 witness: the short-row drop and the bad-token abort instantiated on
concrete inputs. -/
theorem C4_witness :
    collectRows ["Index", "time", "V(a)"] ["0 1"] =
      collectRows ["Index", "time", "V(a)"] [] ∧
    ∃ tok, parse_printed_table ["Index time V(a)", "0 1.0 2.0", "1 abc 2.0"] =
      .error (.badFloat tok) :=
  ⟨C4_theorem.1 ["Index", "time", "V(a)"] "0 1" [] (by decide) (by decide) (by decide),
   C4_theorem.2 ["Index time V(a)", "0 1.0 2.0", "1 abc 2.0"] 0 (by decide) (by decide)⟩

/-- C5 counterexample: with duplicate header V(a) appearing twice over one
data row, the parser output has only 3 keys (not 4 columns), and the single
V(a) key holds 2 merged values. -/
theorem C5_counterexample :
    (parse_printed_table ["Index time V(a) V(a)", "0 1.0 2.0 3.0"]).toOption.map
      (fun t => t.map (fun kv => (kv.1, kv.2.length))) =
      some [("Index", 1), ("time", 1), ("V(a)", 2)] := by decide

/-- C5 witness: the key-structure contract instantiated on a concrete
duplicate-header input. -/
theorem C5_witness :
    (([("Index", ([] : List ℚ)), ("time", []), ("V(a)", [])].map Prod.fst)).Nodup ∧
    (∀ k, k ∈ [("Index", ([] : List ℚ)), ("time", []), ("V(a)", [])].map Prod.fst ↔
      k ∈ pySplitWs (pyStrip (["Index time V(a) V(a)"].getD 0 ""))) ∧
    ([("Index", ([] : List ℚ)), ("time", []), ("V(a)", [])].map
        (fun kv => kv.2.length)).sum =
      (collectRows (pySplitWs (pyStrip (["Index time V(a) V(a)"].getD 0 "")))
          (["Index time V(a) V(a)"].drop (0 + 1))).length *
        (pySplitWs (pyStrip (["Index time V(a) V(a)"].getD 0 ""))).length :=
  C5_theorem ["Index time V(a) V(a)"] 0
    [("Index", []), ("time", []), ("V(a)", [])] (by decide) (by rfl)

/-- C10 witness: the equal-column-length contract instantiated on a
concrete parse, at the Index column. -/
theorem C10_witness :
    (("Index", ([] : List ℚ)) : String × List ℚ).2.length =
      (collectRows (pySplitWs (pyStrip (["Index time V(a)"].getD 0 "")))
        (["Index time V(a)"].drop (0 + 1))).length :=
  C10_theorem ["Index time V(a)"] 0 [("Index", []), ("time", []), ("V(a)", [])]
    (by decide) (by decide) (by rfl) ("Index", []) (by decide)

theorem pyGet_append {α : Type} (d1 d2 : List (String × α)) (k : String) :
    pyGet (d1 ++ d2) k =
      match pyGet d1 k with
      | some v => some v
      | none => pyGet d2 k := by
  induction d1 with
  | nil => simp [pyGet]
  | cons kv rest ih =>
    rw [List.cons_append, pyGet, pyGet]
    by_cases hk : kv.1 = k
    · rw [if_pos hk, if_pos hk]
    · rw [if_neg hk, if_neg hk, ih]

theorem pyGet_iteL {α : Type} (g : Bool) (n : String) (c : α) (k : String) :
    pyGet (if g then [(n, c)] else []) k =
      if g ∧ n = k then some c else none := by
  cases g
  · simp [pyGet]
  · by_cases hk : n = k
    · simp [pyGet, hk]
    · simp [pyGet, hk]

theorem addChan_eq (out : List (String × List ℚ)) (present : Bool) (name : String)
    (c : Option (List ℚ)) (hc : present = true → c.isSome) :
    addChan out present name c =
      some (out ++ (if present then [(name, c.getD [])] else [])) := by
  cases present
  · simp [addChan]
  · obtain ⟨arr, harr⟩ := Option.isSome_iff_exists.mp (hc rfl)
    simp [addChan, harr]

theorem emulate_zmpt_isSome (simdata : List (String × List ℚ)) (key : String)
    (noise : Nat → ℚ) (h : (pyGet simdata key).isSome = true) :
    (emulate_zmpt simdata key noise).isSome = true := by
  obtain ⟨v, hv⟩ := Option.isSome_iff_exists.mp h
  rw [emulate_zmpt, hv]
  rfl

theorem emulate_acs_isSome (simdata : List (String × List ℚ)) (key : String)
    (noise : Nat → ℚ) (h : (pyGet simdata key).isSome = true) :
    (emulate_acs simdata key noise).isSome = true := by
  obtain ⟨v, hv⟩ := Option.isSome_iff_exists.mp h
  rw [emulate_acs, hv]
  rfl

theorem emulate_ntc_isSome (simdata : List (String × List ℚ)) (key : String)
    (h : (pyGet simdata key).isSome = true) :
    (emulate_ntc simdata key).isSome = true := by
  obtain ⟨v, hv⟩ := Option.isSome_iff_exists.mp h
  rw [emulate_ntc, hv]
  rfl

theorem emulate_piezo_isSome (simdata : List (String × List ℚ)) (key : String)
    (noise : Nat → ℚ) (h : (pyGet simdata key).isSome = true) :
    (emulate_piezo simdata key noise).isSome = true := by
  obtain ⟨v, hv⟩ := Option.isSome_iff_exists.mp h
  rw [emulate_piezo, hv]
  rfl

theorem emulate_relay_isSome (simdata : List (String × List ℚ)) (key : String)
    (h : (pyGet simdata key).isSome = true) :
    (emulate_relay simdata key).isSome = true := by
  obtain ⟨v, hv⟩ := Option.isSome_iff_exists.mp h
  rw [emulate_relay, hv]
  rfl

theorem run_emulator_eq (simdata : List (String × List ℚ)) (mapping : Mapping)
    (noiseV noiseA noiseP : Nat → ℚ) :
    run_emulator simdata mapping noiseV noiseA noiseP =
      some ((((([("time", (pyGet simdata "time").getD [])] ++
        (if (pyGet simdata mapping.voltage_node_key).isSome
         then [("GPIO34", (emulate_zmpt simdata mapping.voltage_node_key noiseV).getD [])]
         else [])) ++
        (if (pyGet simdata mapping.current_key).isSome
         then [("GPIO35", (emulate_acs simdata mapping.current_key noiseA).getD [])]
         else [])) ++
        (if (pyGet simdata mapping.temp_node_key).isSome
         then [("GPIO32", (emulate_ntc simdata mapping.temp_node_key).getD [])]
         else [])) ++
        (if (pyGet simdata mapping.piezo_key).isSome
         then [("GPIO33", (emulate_piezo simdata mapping.piezo_key noiseP).getD [])]
         else [])) ++
        (if (pyGet simdata mapping.relay_key).isSome
         then [("GPIO26", (emulate_relay simdata mapping.relay_key).getD [])]
         else [])) := by
  rw [run_emulator]
  rw [addChan_eq _ _ _ _ (fun hg => emulate_zmpt_isSome _ _ _ hg), Option.some_bind]
  rw [addChan_eq _ _ _ _ (fun hg => emulate_acs_isSome _ _ _ hg), Option.some_bind]
  rw [addChan_eq _ _ _ _ (fun hg => emulate_ntc_isSome _ _ hg), Option.some_bind]
  rw [addChan_eq _ _ _ _ (fun hg => emulate_piezo_isSome _ _ _ hg), Option.some_bind]
  rw [addChan_eq _ _ _ _ (fun hg => emulate_relay_isSome _ _ hg)]

/-- C6: for every RawTable and channel mapping, each sensor channel whose
configured source column is absent is omitted from the emulator output (its
GPIO key is absent), and each channel whose source is present is bound to
its transfer function output. -/
theorem C6_theorem (simdata : List (String × List ℚ)) (mapping : Mapping)
    (noiseV noiseA noiseP : Nat → ℚ) (out : List (String × List ℚ))
    (h : run_emulator simdata mapping noiseV noiseA noiseP = some out) :
    ((pyGet simdata mapping.voltage_node_key).isSome = false →
      pyGet out "GPIO34" = none) ∧
    ((pyGet simdata mapping.voltage_node_key).isSome = true →
      pyGet out "GPIO34" = emulate_zmpt simdata mapping.voltage_node_key noiseV) ∧
    ((pyGet simdata mapping.current_key).isSome = false →
      pyGet out "GPIO35" = none) ∧
    ((pyGet simdata mapping.current_key).isSome = true →
      pyGet out "GPIO35" = emulate_acs simdata mapping.current_key noiseA) ∧
    ((pyGet simdata mapping.temp_node_key).isSome = false →
      pyGet out "GPIO32" = none) ∧
    ((pyGet simdata mapping.temp_node_key).isSome = true →
      pyGet out "GPIO32" = emulate_ntc simdata mapping.temp_node_key) ∧
    ((pyGet simdata mapping.piezo_key).isSome = false →
      pyGet out "GPIO33" = none) ∧
    ((pyGet simdata mapping.piezo_key).isSome = true →
      pyGet out "GPIO33" = emulate_piezo simdata mapping.piezo_key noiseP) ∧
    ((pyGet simdata mapping.relay_key).isSome = false →
      pyGet out "GPIO26" = none) ∧
    ((pyGet simdata mapping.relay_key).isSome = true →
      pyGet out "GPIO26" = emulate_relay simdata mapping.relay_key) := by
  rw [run_emulator_eq] at h
  obtain rfl := (Option.some.injEq _ _).mp h.symm
  refine ⟨?_, ?_, ?_, ?_, ?_, ?_, ?_, ?_, ?_, ?_⟩
  · intro hg
    simp [pyGet_append, pyGet_iteL, pyGet, hg]
  · intro hg
    obtain ⟨c, hc⟩ := Option.isSome_iff_exists.mp (emulate_zmpt_isSome _ _ noiseV hg)
    simp [pyGet_append, pyGet_iteL, pyGet, hg, hc]
  · intro hg
    simp [pyGet_append, pyGet_iteL, pyGet, hg]
  · intro hg
    obtain ⟨c, hc⟩ := Option.isSome_iff_exists.mp (emulate_acs_isSome _ _ noiseA hg)
    simp [pyGet_append, pyGet_iteL, pyGet, hg, hc]
  · intro hg
    simp [pyGet_append, pyGet_iteL, pyGet, hg]
  · intro hg
    obtain ⟨c, hc⟩ := Option.isSome_iff_exists.mp (emulate_ntc_isSome _ _ hg)
    simp [pyGet_append, pyGet_iteL, pyGet, hg, hc]
  · intro hg
    simp [pyGet_append, pyGet_iteL, pyGet, hg]
  · intro hg
    obtain ⟨c, hc⟩ := Option.isSome_iff_exists.mp (emulate_piezo_isSome _ _ noiseP hg)
    simp [pyGet_append, pyGet_iteL, pyGet, hg, hc]
  · intro hg
    simp [pyGet_append, pyGet_iteL, pyGet, hg]
  · intro hg
    obtain ⟨c, hc⟩ := Option.isSome_iff_exists.mp (emulate_relay_isSome _ _ hg)
    simp [pyGet_append, pyGet_iteL, pyGet, hg, hc]

/-- C6 witness: the omission and passthrough behavior instantiated on a
frame holding only the time axis and the relay source column. -/
theorem C6_witness :
    ((pyGet [("time", [(0 : ℚ)]), ("V(n_relay)", [5])] defaultMapping.voltage_node_key).isSome = false →
      pyGet [("time", [(0 : ℚ)]), ("GPIO26", [5])] "GPIO34" = none) ∧
    ((pyGet [("time", [(0 : ℚ)]), ("V(n_relay)", [5])] defaultMapping.voltage_node_key).isSome = true →
      pyGet [("time", [(0 : ℚ)]), ("GPIO26", [5])] "GPIO34" =
        emulate_zmpt [("time", [(0 : ℚ)]), ("V(n_relay)", [5])] defaultMapping.voltage_node_key zeroNoise) ∧
    ((pyGet [("time", [(0 : ℚ)]), ("V(n_relay)", [5])] defaultMapping.current_key).isSome = false →
      pyGet [("time", [(0 : ℚ)]), ("GPIO26", [5])] "GPIO35" = none) ∧
    ((pyGet [("time", [(0 : ℚ)]), ("V(n_relay)", [5])] defaultMapping.current_key).isSome = true →
      pyGet [("time", [(0 : ℚ)]), ("GPIO26", [5])] "GPIO35" =
        emulate_acs [("time", [(0 : ℚ)]), ("V(n_relay)", [5])] defaultMapping.current_key zeroNoise) ∧
    ((pyGet [("time", [(0 : ℚ)]), ("V(n_relay)", [5])] defaultMapping.temp_node_key).isSome = false →
      pyGet [("time", [(0 : ℚ)]), ("GPIO26", [5])] "GPIO32" = none) ∧
    ((pyGet [("time", [(0 : ℚ)]), ("V(n_relay)", [5])] defaultMapping.temp_node_key).isSome = true →
      pyGet [("time", [(0 : ℚ)]), ("GPIO26", [5])] "GPIO32" =
        emulate_ntc [("time", [(0 : ℚ)]), ("V(n_relay)", [5])] defaultMapping.temp_node_key) ∧
    ((pyGet [("time", [(0 : ℚ)]), ("V(n_relay)", [5])] defaultMapping.piezo_key).isSome = false →
      pyGet [("time", [(0 : ℚ)]), ("GPIO26", [5])] "GPIO33" = none) ∧
    ((pyGet [("time", [(0 : ℚ)]), ("V(n_relay)", [5])] defaultMapping.piezo_key).isSome = true →
      pyGet [("time", [(0 : ℚ)]), ("GPIO26", [5])] "GPIO33" =
        emulate_piezo [("time", [(0 : ℚ)]), ("V(n_relay)", [5])] defaultMapping.piezo_key zeroNoise) ∧
    ((pyGet [("time", [(0 : ℚ)]), ("V(n_relay)", [5])] defaultMapping.relay_key).isSome = false →
      pyGet [("time", [(0 : ℚ)]), ("GPIO26", [5])] "GPIO26" = none) ∧
    ((pyGet [("time", [(0 : ℚ)]), ("V(n_relay)", [5])] defaultMapping.relay_key).isSome = true →
      pyGet [("time", [(0 : ℚ)]), ("GPIO26", [5])] "GPIO26" =
        emulate_relay [("time", [(0 : ℚ)]), ("V(n_relay)", [5])] defaultMapping.relay_key) :=
  C6_theorem [("time", [(0 : ℚ)]), ("V(n_relay)", [5])] defaultMapping
    zeroNoise zeroNoise zeroNoise [("time", [(0 : ℚ)]), ("GPIO26", [5])] (by rfl)

/-- C7 counterexample: with the relay source column absent, run_emulator
omits GPIO26 from its output instead of emitting an all-zero channel. -/
theorem C7_counterexample :
    pyGet [("time", [(0 : ℚ), 1])] defaultMapping.relay_key = none ∧
    run_emulator [("time", [(0 : ℚ), 1])] defaultMapping zeroNoise zeroNoise zeroNoise =
      some [("time", [(0 : ℚ), 1])] ∧
    pyGet [("time", [(0 : ℚ), 1])] "GPIO26" = none :=
  ⟨rfl, rfl, rfl⟩

/-- C7 (amended): when the relay source column is present the emitted
GPIO26 channel equals the raw values unmodified; when it is absent,
run_emulator omits GPIO26 entirely; emulate_relay alone, called with an
absent key and a present time axis, returns zeros of the time-axis
length — a fallback unreachable through run_emulator. -/
theorem C7_theorem :
    (∀ (simdata : List (String × List ℚ)) (mapping : Mapping)
        (nV nA nP : Nat → ℚ) (out : List (String × List ℚ)) (src : List ℚ),
      run_emulator simdata mapping nV nA nP = some out →
      pyGet simdata mapping.relay_key = some src →
      pyGet out "GPIO26" = some src) ∧
    (∀ (simdata : List (String × List ℚ)) (mapping : Mapping)
        (nV nA nP : Nat → ℚ) (out : List (String × List ℚ)),
      run_emulator simdata mapping nV nA nP = some out →
      pyGet simdata mapping.relay_key = none →
      pyGet out "GPIO26" = none) ∧
    (∀ (simdata : List (String × List ℚ)) (key : String) (t : List ℚ),
      pyGet simdata key = none → pyGet simdata "time" = some t →
      emulate_relay simdata key = some (t.map (fun _ => 0))) := by
  refine ⟨?_, ?_, ?_⟩
  · intro simdata mapping nV nA nP out src h hsrc
    rw [run_emulator_eq] at h
    obtain rfl := (Option.some.injEq _ _).mp h.symm
    have hrelay : emulate_relay simdata mapping.relay_key = some src := by
      rw [emulate_relay, hsrc]
    simp [pyGet_append, pyGet_iteL, pyGet, hsrc, hrelay]
  · intro simdata mapping nV nA nP out h hsrc
    rw [run_emulator_eq] at h
    obtain rfl := (Option.some.injEq _ _).mp h.symm
    simp [pyGet_append, pyGet_iteL, pyGet, hsrc]
  · intro simdata key t hnone htime
    rw [emulate_relay, hnone, htime]
    rfl

/-- C7 witness: relay passthrough, omission and the zero fallback
instantiated on concrete frames. -/
theorem C7_witness :
    pyGet [("time", [(0 : ℚ)]), ("GPIO26", [5])] "GPIO26" = some [5] ∧
    pyGet [("time", [(0 : ℚ)])] "GPIO26" = none ∧
    emulate_relay [("time", [(0 : ℚ), 1])] "V(n_relay)" =
      some (([(0 : ℚ), 1]).map (fun _ => 0)) :=
  ⟨C7_theorem.1 [("time", [(0 : ℚ)]), ("V(n_relay)", [5])] defaultMapping
      zeroNoise zeroNoise zeroNoise [("time", [(0 : ℚ)]), ("GPIO26", [5])] [5] (by rfl) (by rfl),
   C7_theorem.2.1 [("time", [(0 : ℚ)])] defaultMapping
      zeroNoise zeroNoise zeroNoise [("time", [(0 : ℚ)])] (by rfl) (by rfl),
   C7_theorem.2.2 [("time", [(0 : ℚ), 1])] "V(n_relay)" [0, 1] (by rfl) (by rfl)⟩

theorem pyGet_of_mem_nodup {α : Type} (d : List (String × α)) (k : String) (v : α)
    (hnd : (d.map Prod.fst).Nodup) (hmem : (k, v) ∈ d) : pyGet d k = some v := by
  induction d with
  | nil => exact absurd hmem (List.not_mem_nil (k, v))
  | cons kv rest ih =>
    rw [List.map_cons, List.nodup_cons] at hnd
    rcases List.mem_cons.mp hmem with rfl | hmem2
    · rw [pyGet, if_pos rfl]
    · rw [pyGet]
      have hne : kv.1 ≠ k := by
        intro hkk
        exact hnd.1 (hkk ▸ List.mem_map_of_mem Prod.fst hmem2)
      rw [if_neg hne]
      exact ih hnd.2 hmem2

theorem pyGet_map_self {α : Type} (keys : List String) (f : String → α) (k : String)
    (hk : k ∈ keys) : pyGet (keys.map (fun x => (x, f x))) k = some (f k) := by
  induction keys with
  | nil => exact absurd hk (List.not_mem_nil k)
  | cons x rest ih =>
    rw [List.map_cons, pyGet]
    by_cases hx : x = k
    · subst hx
      rw [if_pos rfl]
    · rw [if_neg hx]
      exact ih (by rcases List.mem_cons.mp hk with rfl | h2; exact absurd rfl hx; exact h2)

/-- C9: for a SensorFrame with unique keys and a time axis of length n, the
unifier yields exactly n records in order; record i carries the time value
at index i, spans exactly the non-time channel key set, and binds channel k
to its value at i when the channel is long enough and to an explicit null
otherwise. -/
theorem C9_theorem (d : List (String × List ℚ)) (t : List ℚ)
    (hnd : (d.map Prod.fst).Nodup)
    (ht : pyGet d "time" = some t) :
    ∃ rows, unify d = some rows ∧ rows.length = t.length ∧
      ∀ (i : Nat) (hi : i < t.length) (hi2 : i < rows.length),
        (rows.get ⟨i, hi2⟩).time = t.get ⟨i, hi⟩ ∧
        (rows.get ⟨i, hi2⟩).fields.map Prod.fst =
          (d.map Prod.fst).filter (fun k => k ≠ "time") ∧
        ∀ (k : String) (arr : List ℚ), (k, arr) ∈ d → k ≠ "time" →
          pyGet (rows.get ⟨i, hi2⟩).fields k = some (arr.get? i) := by
  rw [unify, ht]
  simp only [Option.map_some']
  refine ⟨_, rfl, by simp, ?_⟩
  intro i hi hi2
  have hrow : ((List.range t.length).map (fun i =>
      ({ time := t.getD i 0,
         fields := ((d.map Prod.fst).filter (fun k => k ≠ "time")).map
           (fun k => (k, ((pyGet d k).getD []).get? i)) } : URow))).get ⟨i, hi2⟩ =
      { time := t.getD i 0,
        fields := ((d.map Prod.fst).filter (fun k => k ≠ "time")).map
          (fun k => (k, ((pyGet d k).getD []).get? i)) } := by
    rw [List.get_eq_getElem]
    simp only [List.getElem_map, List.getElem_range]
  rw [hrow]
  refine ⟨List.getD_eq_get t 0 hi, ?_, ?_⟩
  · rw [List.map_map]
    have hcomp : (Prod.fst ∘ fun k : String => (k, ((pyGet d k).getD []).get? i)) = id := rfl
    rw [hcomp, List.map_id]
  · intro k arr hmem hkt
    have hkeys : k ∈ (d.map Prod.fst).filter (fun k => k ≠ "time") := by
      rw [List.mem_filter]
      exact ⟨List.mem_map_of_mem Prod.fst hmem, by simp [hkt]⟩
    rw [pyGet_map_self _ _ k hkeys, pyGet_of_mem_nodup d k arr hnd hmem]
    rfl

/-- C9 witness: the unifier contract instantiated on a frame with a 2-point
time axis and one shorter channel. -/
theorem C9_witness :
    ∃ rows, unify [("time", [(1 : ℚ), 2]), ("a", [5])] = some rows ∧
      rows.length = [(1 : ℚ), 2].length ∧
      ∀ (i : Nat) (hi : i < [(1 : ℚ), 2].length) (hi2 : i < rows.length),
        (rows.get ⟨i, hi2⟩).time = [(1 : ℚ), 2].get ⟨i, hi⟩ ∧
        (rows.get ⟨i, hi2⟩).fields.map Prod.fst =
          (([("time", [(1 : ℚ), 2]), ("a", [5])].map Prod.fst).filter
            (fun k => k ≠ "time")) ∧
        ∀ (k : String) (arr : List ℚ),
          (k, arr) ∈ [("time", [(1 : ℚ), 2]), ("a", [5])] → k ≠ "time" →
          pyGet (rows.get ⟨i, hi2⟩).fields k = some (arr.get? i) :=
  C9_theorem [("time", [(1 : ℚ), 2]), ("a", [5])] [1, 2] (by decide) (by rfl)

/-- C1 witness: in the sanitized feature vector of the constant channel
[0, 0, 0], the skew entry (NaN before sanitization) is finite. -/
theorem C1_witness :
    (("GPIO34_skew", F.fin 0) : String × F).2 ≠ F.nan :=
  C1_theorem [("GPIO34", [0, 0, 0])]
    [("GPIO34_mean", F.fin 0), ("GPIO34_std", F.fin 0), ("GPIO34_max", F.fin 0),
     ("GPIO34_min", F.fin 0), ("GPIO34_rms", F.fin 0), ("GPIO34_skew", F.nan),
     ("GPIO34_kurt", F.nan)]
    (by rw [signals_to_feature_vector, List.foldlM_cons, extract_const3]; rfl)
    ("GPIO34_skew", F.fin 0)
    (by simp [sanitize_json, sanitize_scalar])

end Equip
